import Mathlib

/-!
Verification of the portfolio-construction analytics engine
(`calculate_stats.py`, `pf_std.py`) against its natural-language
specification.

Numeric values are modelled as exact rationals (`ℚ`); square roots land in
`ℝ` via `Real.sqrt`.  A Python float `NaN` outcome — e.g. pandas `.std()`
of fewer than two observations, or `np.sqrt` of a negative number — is
modelled as `none` in an `Option` result.  A hard failure (an exception
such as `IndexError` from `df.iloc[0]` / `df.iloc[-1]` on an empty frame,
or `pd.concat` of an empty list) is likewise modelled by an `Option`-valued
function returning `none` at exactly the inputs where the source raises.
-/

namespace PortfolioStats

/-- A calendar date: a year together with the day's ordinal inside that
year.  The `pandas` date index only matters to the engine through its
order and through calendar-year bucketing (`freq="YE"`), both captured
here. -/
structure Date where
  year : Int
  ord : Nat
deriving DecidableEq, Repr

/-- Lexicographic `≤` on dates, mirroring chronological order. -/
def DateLE (a b : Date) : Prop := a.year < b.year ∨ (a.year = b.year ∧ a.ord ≤ b.ord)

/-- Lexicographic `<` on dates. -/
def DateLT (a b : Date) : Prop := a.year < b.year ∨ (a.year = b.year ∧ a.ord < b.ord)

instance (a b : Date) : Decidable (DateLE a b) := by
  unfold DateLE; exact inferInstance

instance (a b : Date) : Decidable (DateLT a b) := by
  unfold DateLT; exact inferInstance

theorem DateLE.refl (a : Date) : DateLE a a := Or.inr ⟨rfl, le_refl _⟩

theorem DateLT.le {a b : Date} (h : DateLT a b) : DateLE a b := by
  rcases h with h | ⟨hy, ho⟩
  · exact Or.inl h
  · exact Or.inr ⟨hy, le_of_lt ho⟩

theorem DateLT.trans {a b c : Date} (h₁ : DateLT a b) (h₂ : DateLT b c) : DateLT a c := by
  rcases h₁ with h₁ | ⟨hy₁, ho₁⟩ <;> rcases h₂ with h₂ | ⟨hy₂, ho₂⟩
  · exact Or.inl (lt_trans h₁ h₂)
  · exact Or.inl (hy₂ ▸ h₁)
  · exact Or.inl (hy₁ ▸ h₂)
  · exact Or.inr ⟨hy₁.trans hy₂, lt_trans ho₁ ho₂⟩

/-- A date-indexed series, as handed to the engine: already aligned,
chronologically ordered `(date, value)` pairs. -/
abbrev Series := List (Date × ℚ)

/-- Dates of a series are strictly increasing (the data-model invariant
"dates strictly increasing, no duplicate dates"). -/
def SortedSeries (s : Series) : Prop := List.Chain' (fun p q => DateLT p.1 q.1) s

/-! ## DrawdownCalculator (`calculate_draw_down` in `calculate_stats.py`) -/

/-- One row of the drawdown result frame: columns `dd`, `mdd`, `avdd`. -/
structure DDRow where
  dd : ℚ
  mdd : ℚ
  avdd : ℚ
deriving DecidableEq, Repr

/-- The loop body of `get_full_period_dd`: for each value, update
`peak = max(peak, value)`, `mdd = max(mdd, (peak - value)/peak)` and record
the row `[(peak - value)/peak, mdd]`.  Returns the `dd` and `mdd` columns. -/
def ddLoop (peak mdd : ℚ) : List ℚ → List (ℚ × ℚ)
  | [] => []
  | v :: rest =>
    let peak' := max peak v
    let dd := (peak' - v) / peak'
    let mdd' := max mdd dd
    (dd, mdd') :: ddLoop peak' mdd' rest

/-- `df_result["dd"].expanding().mean()`: the running (expanding) mean,
computed with a running sum and count as pandas does. -/
def expandingMeanAux (s : ℚ) (k : ℕ) : List ℚ → List ℚ
  | [] => []
  | x :: rest => ((s + x) / (k + 1)) :: expandingMeanAux (s + x) (k + 1) rest

/-- Expanding mean of a list, starting from an empty window. -/
def expandingMean (xs : List ℚ) : List ℚ := expandingMeanAux 0 0 xs

/-- `get_full_period_dd`: initialize `peak` to the first value
(`df.iloc[0][column]` — raises on an empty frame, hence `none`), run the
drawdown loop over every row, then attach the `avdd` column as the
expanding mean of the `dd` column. -/
def get_full_period_dd (vals : List ℚ) : Option (List DDRow) :=
  match vals with
  | [] => none
  | v :: _ =>
    let dm := ddLoop v 0 vals
    some ((List.zipWith (fun p a => ⟨p.1, p.2, a⟩) dm (expandingMean (dm.map Prod.fst))))

/-- `get_slices`: chunk a frame into consecutive slices of `n` rows
(`df.iloc[start:start+n]` for `start = 0, n, 2n, ...`).  Fuel-driven
recursion; for `n ≥ 1` the fuel `vals.length` is enough to consume the
whole list exactly as the Python `range(0, len(df), n)` loop does. -/
def get_slicesAux : ℕ → List ℚ → ℕ → List (List ℚ)
  | 0, _, _ => []
  | _, [], _ => []
  | fuel + 1, vals, n => vals.take n :: get_slicesAux fuel (vals.drop n) n

/-- `get_slices df n`. -/
def get_slices (vals : List ℚ) (n : ℕ) : List (List ℚ) :=
  get_slicesAux vals.length vals n

/-- The summary taken from one slice in windowed mode:
`get_full_period_dd(df_slice, column)[["mdd", "avdd"]].iloc[-1]` — the
final `(mdd, avdd)` pair of the slice's own full-period computation
(`none` if the slice is empty and `iloc` raises). -/
def windowSummary (s : List ℚ) : Option (ℚ × ℚ) :=
  match get_full_period_dd s with
  | none => none
  | some rows => rows.getLast?.map (fun r => (r.mdd, r.avdd))

/-- `calculate_draw_down` with `full_period=True`. -/
def calculate_draw_down_full (vals : List ℚ) : Option (List DDRow) :=
  get_full_period_dd vals

/-- The `results` accumulation loop of the windowed branch: one summary
per slice, aborting (as the Python `iloc[-1]` would raise) if any slice's
summary is undefined. -/
def windowSummaries : List (List ℚ) → Option (List (ℚ × ℚ))
  | [] => some []
  | s :: rest =>
    match windowSummary s, windowSummaries rest with
    | some r, some rs => some (r :: rs)
    | _, _ => none

/-- `calculate_draw_down` with `full_period=False`: one `(mdd, avdd)`
summary row per slice.  `pd.concat` of an empty result list raises, hence
`none` when there are no slices. -/
def calculate_draw_down_windowed (vals : List ℚ) (n : ℕ) : Option (List (ℚ × ℚ)) :=
  if get_slices vals n = [] then none
  else windowSummaries (get_slices vals n)

/-- The `dd` and `mdd` columns of a drawdown result frame. -/
def ddmddOf (rows : List DDRow) : List (ℚ × ℚ) := rows.map (fun r => (r.dd, r.mdd))

/-- The `dd` column of a drawdown result frame. -/
def ddOf (rows : List DDRow) : List ℚ := rows.map DDRow.dd

/-- Spec-side recurrence, written from the spec's words ("maintain a
running peak value, initialized to the series' first value; for each
subsequent observation: `peak = max(peak, value)`;
`dd = (peak - value) / peak`; `mdd = max(mdd_so_far, dd)`"): the step
applied to each observation after the first. -/
def ddSpecAux (peak mdd : ℚ) : List ℚ → List (ℚ × ℚ)
  | [] => []
  | v :: rest =>
    let peak' := max peak v
    let dd := (peak' - v) / peak'
    let mdd' := max mdd dd
    (dd, mdd') :: ddSpecAux peak' mdd' rest

/-- Spec-side drawdown columns: `dd = 0` at the first date ("dd=0 at the
anchor point by construction"), then the recurrence over the rest. -/
def ddSpec : List ℚ → List (ℚ × ℚ)
  | [] => []
  | v :: rest => (0, 0) :: ddSpecAux v 0 rest

/-! ## SharpeCalculator (`get_sharpe_ratio` in `calculate_stats.py`)

The risk-free series is taken as an already-reindexed function
`Date → ℚ` (the source reindexes the fetched curve onto the value
series' dates with `ffill().bfill()`, removing every gap; fetching and
alignment are external collaborators per the spec's scope). -/

/-- `xs.mean()`: arithmetic mean. -/
def meanQ (xs : List ℚ) : ℚ := xs.sum / xs.length

/-- Sample variance (`ddof=1`), the square of pandas `xs.std()`. -/
def sampleVarQ (xs : List ℚ) : ℚ :=
  (xs.map (fun x => (x - meanQ xs) ^ 2)).sum / ((xs.length : ℚ) - 1)

/-- pandas `xs.std()` with `ddof=1`: `NaN` (here `none`) when fewer than
two observations, else the square root of the sample variance. -/
noncomputable def sampleStd (xs : List ℚ) : Option ℝ :=
  if xs.length < 2 then none else some (Real.sqrt (sampleVarQ xs))

/-- `df_index[col].pct_change().fillna(0) * 100` followed by `.iloc[1:]`:
percent returns attached to the dates of the second observation onward;
the anchor `0` at the first date is dropped. -/
def returnsSeries (s : Series) : Series :=
  List.zipWith (fun p c => (c.1, 100 * (c.2 / p.2 - 1))) s s.tail

/-- `df_index.loc[start_date:end_date]` on a chronologically sorted index. -/
def sliceSeries (start end_ : Date) (s : Series) : Series :=
  s.filter (fun dv => decide (DateLE start dv.1 ∧ DateLE dv.1 end_))

/-- `(1 + x/100).prod()`. -/
def prodPlus (vals : List ℚ) : ℚ := (vals.map (fun v => 1 + v / 100)).prod

/-- The `full_period=True` branch of `get_sharpe_ratio`: slice the frame,
take percent returns, subtract the daily-equivalent risk-free rate
`rf/365` per row, and return `mean / std * sqrt(365)` (`NaN` when the
excess-return series has fewer than two rows). -/
noncomputable def get_sharpe_ratio_full (rfAt : Date → ℚ) (start end_ : Date) (s : Series) :
    Option ℝ :=
  let r := returnsSeries (sliceSeries start end_ s)
  let excess := r.map (fun dv => dv.2 - rfAt dv.1 / 365)
  (sampleStd excess).map (fun sd => (meanQ excess : ℝ) / sd * Real.sqrt 365)

/-- Spec-side comparison definition, written from the spec's words: the
full-period Sharpe "over the series' full date span" — the same
full-period pipeline applied to the whole series, with no slicing. -/
noncomputable def specFullPeriodSharpe (rfAt : Date → ℚ) (s : Series) : Option ℝ :=
  let r := returnsSeries s
  let excess := r.map (fun dv => dv.2 - rfAt dv.1 / 365)
  (sampleStd excess).map (fun sd => (meanQ excess : ℝ) / sd * Real.sqrt 365)

/-- `annualized_daily`, the yearly (`freq="YE"`) per-bucket formula:
`(100 * ((1 + x/100).prod() - 1) - risk_free) / (x.std() * sqrt(len(x)))`
with `risk_free` the rate at the bucket's last date, unscaled. -/
noncomputable def annualized_daily (rfAt : Date → ℚ) (x : Series) : Option ℝ :=
  match x.getLast? with
  | none => none
  | some last =>
    let vals := x.map Prod.snd
    let rf := rfAt last.1
    (sampleStd vals).map
      (fun sd => ((100 * (prodPlus vals - 1) - rf : ℚ) : ℝ) / (sd * Real.sqrt vals.length))

/-- The distinct calendar years of a (chronologically sorted) return
series, in order of first appearance: the non-empty `freq="YE"` buckets of
`pd.Grouper`. -/
def yearsOf (r : Series) : List Int := (r.map (fun dv => dv.1.year)).dedup

/-- The rows of a series falling in calendar year `y`. -/
def yearBucket (r : Series) (y : Int) : Series := r.filter (fun dv => dv.1.year = y)

/-- The `full_period=False, freq="YE"` branch of `get_sharpe_ratio`:
group the percent-return series by calendar year and apply
`annualized_daily` to each bucket, giving one `(year, ratio)` row per
bucket (`none` ratio = `NaN`). -/
noncomputable def get_sharpe_ratio_yearly (rfAt : Date → ℚ) (start end_ : Date) (s : Series) :
    List (Int × Option ℝ) :=
  let r := returnsSeries (sliceSeries start end_ s)
  (yearsOf r).map (fun y => (y, annualized_daily rfAt (yearBucket r y)))

/-! ## PortfolioVarianceCalculator (`calculate_portfolio_std` in `pf_std.py`) -/

/-- `np.sqrt` on a scalar: `NaN` (here `none`) for a negative argument,
else the real square root. -/
noncomputable def np_sqrt (x : ℚ) : Option ℝ :=
  if x < 0 then none else some (Real.sqrt x)

/-- Dot product of two vectors (`np.dot` on 1-D arrays). -/
def dotV (a b : List ℚ) : ℚ := (List.zipWith (· * ·) a b).sum

/-- Matrix–vector product (`np.dot` of a 2-D and a 1-D array). -/
def matVec (m : List (List ℚ)) (v : List ℚ) : List ℚ := m.map (fun row => dotV row v)

/-- `np.outer(a, b)`. -/
def outer (a b : List ℚ) : List (List ℚ) := a.map (fun x => b.map (fun y => x * y))

/-- Elementwise product of two matrices (`*` on same-shape 2-D arrays). -/
def hadamard (A B : List (List ℚ)) : List (List ℚ) :=
  List.zipWith (List.zipWith (· * ·)) A B

/-- `covariance_matrix = np.outer(std_devs, std_devs) * correlations`. -/
def covariance_matrix (std_devs : List ℚ) (correlations : List (List ℚ)) : List (List ℚ) :=
  hadamard (outer std_devs std_devs) correlations

/-- `portfolio_variance = np.dot(weights.T, np.dot(covariance_matrix, weights))`.
Dimensions are assumed consistent (`weights`, `std_devs` of length n,
`correlations` n×n), as the spec requires of callers. -/
def portfolio_variance (weights std_devs : List ℚ) (correlations : List (List ℚ)) : ℚ :=
  dotV weights (matVec (covariance_matrix std_devs correlations) weights)

/-- `calculate_portfolio_std`: the square root of the portfolio variance,
via `np.sqrt` (so `NaN`/`none` exactly when the variance is negative; the
function performs no validity check and raises nothing). -/
noncomputable def calculate_portfolio_std (weights std_devs : List ℚ)
    (correlations : List (List ℚ)) : Option ℝ :=
  np_sqrt (portfolio_variance weights std_devs correlations)

/-! ## PerformanceAggregator (`calculate_model_performance_stats`) -/

/-- The four-field record returned by `calculate_model_performance_stats`
(keys `{column}`, `{column}_returns`, `{column}_sharpe`, `{column}_mdd`). -/
structure PerfStats where
  raw_value : ℚ
  returns : ℚ
  sharpe : Option ℝ
  mdd : Option ℚ

/-- `calculate_model_performance_stats(df, column, base)`: last raw value,
return since base, full-period Sharpe over `df.index[0]..df.index[-1]`,
and the last `mdd` of the full-period drawdown frame.  `none` when the
frame is empty and `iloc` raises. -/
noncomputable def calculate_model_performance_stats (rfAt : Date → ℚ) (s : Series) (base : ℚ) :
    Option PerfStats :=
  match s.head?, s.getLast? with
  | some first, some last =>
    let raw := last.2
    some
      { raw_value := raw
        returns := raw / base - 1
        sharpe := get_sharpe_ratio_full rfAt first.1 last.1 s
        mdd := (get_full_period_dd (s.map Prod.snd)).bind
          (fun rows => rows.getLast?.map DDRow.mdd) }
  | _, _ => none

/-! ## Concrete scenario inputs -/

/-- The spec's Sharpe scenario series `[1000, 1100, 1050, 1200]` on four
consecutive business days of one calendar year. -/
def c1_series : Series :=
  [(⟨2024, 1⟩, 1000), (⟨2024, 2⟩, 1100), (⟨2024, 3⟩, 1050), (⟨2024, 6⟩, 1200)]

/-- The same values placed on business days straddling a year boundary, so
that the yearly grouping produces one bucket with two returns and one
trailing bucket with a single return. -/
def c7_series : Series :=
  [(⟨2023, 360⟩, 1000), (⟨2023, 362⟩, 1100), (⟨2023, 364⟩, 1050), (⟨2024, 2⟩, 1200)]

/-! ## Helper lemmas -/

theorem ddSpecAux_eq_ddLoop (xs : List ℚ) : ∀ p m, ddSpecAux p m xs = ddLoop p m xs := by
  induction xs with
  | nil => intro p m; rfl
  | cons v rest ih => intro p m; simp [ddSpecAux, ddLoop, ih]

theorem ddLoop_length (xs : List ℚ) : ∀ p m, (ddLoop p m xs).length = xs.length := by
  induction xs with
  | nil => intro p m; rfl
  | cons v rest ih => intro p m; simp [ddLoop, ih]

theorem expandingMeanAux_length (xs : List ℚ) :
    ∀ s k, (expandingMeanAux s k xs).length = xs.length := by
  induction xs with
  | nil => intro s k; rfl
  | cons x rest ih => intro s k; simp [expandingMeanAux, ih]

theorem ddmddOf_zip (dm : List (ℚ × ℚ)) : ∀ ams : List ℚ, dm.length = ams.length →
    ddmddOf (List.zipWith (fun p a => DDRow.mk p.1 p.2 a) dm ams) = dm := by
  induction dm with
  | nil => intro ams _; rfl
  | cons hd tl ih =>
    intro ams h
    cases ams with
    | nil => simp at h
    | cons a as =>
      have h' : tl.length = as.length := by simpa using h
      have htl := ih as h'
      simp only [List.zipWith, ddmddOf, List.map, List.cons.injEq, Prod.mk.eta,
        true_and] at htl ⊢
      exact htl

theorem get_full_period_dd_eq (v : ℚ) (rest : List ℚ) :
    get_full_period_dd (v :: rest) =
      some (List.zipWith (fun p a => DDRow.mk p.1 p.2 a) (ddLoop v 0 (v :: rest))
        (expandingMean ((ddLoop v 0 (v :: rest)).map Prod.fst))) := rfl

theorem get_full_period_dd_length (vals : List ℚ) (rows : List DDRow)
    (h : get_full_period_dd vals = some rows) : rows.length = vals.length := by
  cases vals with
  | nil => simp [get_full_period_dd] at h
  | cons v rest =>
    rw [get_full_period_dd_eq] at h
    cases h
    simp [List.length_zipWith, ddLoop_length, expandingMean, expandingMeanAux_length,
      List.length_map]

theorem ddmddOf_get_full (v : ℚ) (rest : List ℚ) (rows : List DDRow)
    (h : get_full_period_dd (v :: rest) = some rows) :
    ddmddOf rows = ddLoop v 0 (v :: rest) := by
  rw [get_full_period_dd_eq] at h
  cases h
  exact ddmddOf_zip _ _ (by
    simp [expandingMean, expandingMeanAux_length, List.length_map])

theorem ddLoop_head_self (v : ℚ) (rest : List ℚ) :
    ddLoop v 0 (v :: rest) = (0, 0) :: ddLoop v 0 rest := by
  simp [ddLoop]

theorem ddSpec_eq_ddLoop (v : ℚ) (rest : List ℚ) :
    ddSpec (v :: rest) = ddLoop v 0 (v :: rest) := by
  rw [ddLoop_head_self, ddSpec, ddSpecAux_eq_ddLoop]

theorem ddLoop_mdd_chain (xs : List ℚ) : ∀ p m,
    List.Chain' (· ≤ ·) (m :: (ddLoop p m xs).map Prod.snd) := by
  induction xs with
  | nil => intro p m; simp [ddLoop]
  | cons v rest ih =>
    intro p m
    simp only [ddLoop, List.map]
    exact List.chain'_cons.mpr ⟨le_max_left _ _, ih _ _⟩

theorem mdd_monotone (vals : List ℚ) (rows : List DDRow)
    (h : get_full_period_dd vals = some rows) :
    List.Chain' (· ≤ ·) (rows.map DDRow.mdd) := by
  cases vals with
  | nil => simp [get_full_period_dd] at h
  | cons v rest =>
    have hdm : rows.map DDRow.mdd = (ddLoop v 0 (v :: rest)).map Prod.snd := by
      have := ddmddOf_get_full v rest rows h
      calc rows.map DDRow.mdd = (ddmddOf rows).map Prod.snd := by
            simp [ddmddOf, List.map_map]
        _ = (ddLoop v 0 (v :: rest)).map Prod.snd := by rw [this]
    rw [hdm]
    exact (ddLoop_mdd_chain (v :: rest) v 0).tail

theorem ddLoop_mdd_le_one (xs : List ℚ) : ∀ p m, 0 < p → (∀ v ∈ xs, 0 < v) → m ≤ 1 →
    ∀ q ∈ ddLoop p m xs, q.2 ≤ 1 := by
  induction xs with
  | nil => intro p m _ _ _ q hq; simp [ddLoop] at hq
  | cons v rest ih =>
    intro p m hp hpos hm q hq
    have hv : 0 < v := hpos v (by simp)
    have hp' : 0 < max p v := lt_max_of_lt_right hv
    have hdd : (max p v - v) / max p v ≤ 1 := by
      rw [div_le_one hp']
      linarith
    have hm' : max m ((max p v - v) / max p v) ≤ 1 := max_le hm hdd
    simp only [ddLoop, List.mem_cons] at hq
    rcases hq with hq | hq
    · rw [hq]; exact hm'
    · exact ih _ _ hp' (fun w hw => hpos w (by simp [hw])) hm' q hq

theorem mdd_le_one (vals : List ℚ) (rows : List DDRow)
    (hpos : ∀ v ∈ vals, 0 < v) (h : get_full_period_dd vals = some rows) :
    ∀ x ∈ rows.map DDRow.mdd, x ≤ 1 := by
  cases vals with
  | nil => simp [get_full_period_dd] at h
  | cons v rest =>
    have hdm : rows.map DDRow.mdd = (ddLoop v 0 (v :: rest)).map Prod.snd := by
      have := ddmddOf_get_full v rest rows h
      calc rows.map DDRow.mdd = (ddmddOf rows).map Prod.snd := by
            simp [ddmddOf, List.map_map]
        _ = (ddLoop v 0 (v :: rest)).map Prod.snd := by rw [this]
    rw [hdm]
    intro x hx
    obtain ⟨q, hq, hqx⟩ := List.mem_map.mp hx
    rw [← hqx]
    exact ddLoop_mdd_le_one (v :: rest) v 0 (hpos v (by simp)) hpos (by norm_num) q hq

theorem expandingMeanAux_get (xs : List ℚ) :
    ∀ s k i (hi : i < (expandingMeanAux s k xs).length),
    (expandingMeanAux s k xs).get ⟨i, hi⟩ = (s + (xs.take (i + 1)).sum) / (k + i + 1) := by
  induction xs with
  | nil => intro s k i hi; simp [expandingMeanAux] at hi
  | cons x rest ih =>
    intro s k i hi
    cases i with
    | zero => simp [expandingMeanAux]
    | succ j =>
      have hj : j < (expandingMeanAux (s + x) (k + 1) rest).length := by
        simpa [expandingMeanAux] using hi
      have hrec := ih (s + x) (k + 1) j hj
      simp only [expandingMeanAux, List.get_cons_succ]
      rw [hrec, List.take_succ_cons, List.sum_cons]
      push_cast
      ring

theorem ddOf_eq (rows : List DDRow) : ddOf rows = (ddmddOf rows).map Prod.fst := by
  simp [ddOf, ddmddOf, List.map_map]

theorem get_slicesAux_nil (fuel n : ℕ) : get_slicesAux fuel [] n = [] := by
  cases fuel <;> rfl

theorem get_slices_singleton (vals : List ℚ) (h : vals ≠ []) :
    get_slices vals vals.length = [vals] := by
  cases vals with
  | nil => exact absurd rfl h
  | cons v rest =>
    show get_slicesAux (rest.length + 1) (v :: rest) (v :: rest).length = [v :: rest]
    rw [get_slicesAux, List.take_length, List.drop_length, get_slicesAux_nil]
    simp

theorem windowSummary_eq_bind (vals : List ℚ) :
    windowSummary vals =
      (get_full_period_dd vals).bind
        (fun rows => rows.getLast?.map (fun r => (r.mdd, r.avdd))) := by
  unfold windowSummary
  cases get_full_period_dd vals <;> rfl

theorem windowSummary_of_nonempty (vals : List ℚ) (h : vals ≠ []) :
    ∃ r : DDRow, windowSummary vals = some (r.mdd, r.avdd) := by
  cases vals with
  | nil => exact absurd rfl h
  | cons v rest =>
    obtain ⟨rows, hrows⟩ : ∃ rows, get_full_period_dd (v :: rest) = some rows :=
      ⟨_, get_full_period_dd_eq v rest⟩
    have hlen : rows.length = rest.length + 1 := get_full_period_dd_length _ _ hrows
    have hne : rows ≠ [] := by
      intro hc; rw [hc] at hlen; simp at hlen
    obtain ⟨r, hr⟩ := Option.isSome_iff_exists.mp (List.getLast?_isSome.mpr hne)
    refine ⟨r, ?_⟩
    rw [windowSummary_eq_bind, hrows, Option.some_bind, hr, Option.map_some']

theorem windowSummaries_singleton (vals : List ℚ) :
    windowSummaries [vals] = (windowSummary vals).map (fun p => [p]) := by
  unfold windowSummaries
  cases windowSummary vals <;> rfl

theorem get_slicesAux_mem_ne_nil : ∀ (fuel : ℕ) (vals : List ℚ) (n : ℕ), 1 ≤ n →
    ∀ s ∈ get_slicesAux fuel vals n, s ≠ [] := by
  intro fuel
  induction fuel with
  | zero => intro vals n _ s hs; simp [get_slicesAux] at hs
  | succ f ih =>
    intro vals n hn s hs
    cases vals with
    | nil => simp [get_slicesAux_nil] at hs
    | cons v rest =>
      rw [get_slicesAux] at hs
      · rcases List.mem_cons.mp hs with hs | hs
        · rw [hs]
          simp [List.take_eq_nil_iff]
          omega
        · exact ih _ n hn s hs
      · simp

theorem get_slices_ne_nil (vals : List ℚ) (n : ℕ) (h : vals ≠ []) :
    get_slices vals n ≠ [] := by
  cases vals with
  | nil => exact absurd rfl h
  | cons v rest =>
    show get_slicesAux (rest.length + 1) (v :: rest) n ≠ []
    rw [get_slicesAux]
    · simp
    · simp

theorem windowSummaries_of_all_nonempty : ∀ l : List (List ℚ), (∀ s ∈ l, s ≠ []) →
    ∃ out, windowSummaries l = some out := by
  intro l
  induction l with
  | nil => intro _; exact ⟨[], rfl⟩
  | cons s rest ih =>
    intro h
    obtain ⟨r, hr⟩ := windowSummary_of_nonempty s (h s (by simp))
    obtain ⟨out, hout⟩ := ih (fun t ht => h t (by simp [ht]))
    refine ⟨(r.mdd, r.avdd) :: out, ?_⟩
    unfold windowSummaries
    rw [hr, hout]

/-! ## Claim theorems: drawdown (C2, C3, C4, C8, C10) -/

/-- C2: for every non-empty, strictly positive value series, full-period
drawdown emits one record per input date whose `dd`/`mdd` columns follow
the spec's running-peak recurrence (`peak = max(peak, value)`,
`dd = (peak - value)/peak`, `mdd = max(mdd_so_far, dd)`, `dd = 0` at the
first date); and on `[100, 90, 95, 80, 120]` the dd sequence is
`[0, 0.1, 0.05, 0.2, 0]` and the mdd sequence `[0, 0.1, 0.1, 0.2, 0.2]`. -/
theorem drawdown_full_period_recurrence :
    (∀ vals : List ℚ, vals ≠ [] → (∀ v ∈ vals, 0 < v) →
      (get_full_period_dd vals).map ddmddOf = some (ddSpec vals) ∧
      (get_full_period_dd vals).map List.length = some vals.length) ∧
    (get_full_period_dd [100, 90, 95, 80, 120]).map ddmddOf =
      some [(0, 0), (1/10, 1/10), (1/20, 1/10), (1/5, 1/5), (0, 1/5)] := by
  constructor
  · intro vals hne _hpos
    cases vals with
    | nil => exact absurd rfl hne
    | cons v rest =>
      obtain ⟨rows, hrows⟩ : ∃ rows, get_full_period_dd (v :: rest) = some rows :=
        ⟨_, get_full_period_dd_eq v rest⟩
      rw [hrows]
      constructor
      · rw [Option.map_some', ddmddOf_get_full v rest rows hrows, ddSpec_eq_ddLoop]
      · rw [Option.map_some', get_full_period_dd_length _ rows hrows]
  · norm_num [get_full_period_dd, ddLoop, expandingMean, expandingMeanAux, max_def, ddmddOf]

/-- Witness for C2: the recurrence applied to `[100, 90, 95, 80, 120]`. -/
theorem drawdown_full_period_recurrence_witness :
    (get_full_period_dd [100, 90, 95, 80, 120]).map ddmddOf =
      some (ddSpec [100, 90, 95, 80, 120]) ∧
    (get_full_period_dd [100, 90, 95, 80, 120]).map List.length = some 5 :=
  drawdown_full_period_recurrence.1 [100, 90, 95, 80, 120] (by simp) (by norm_num)

/-- C3 (amended): `running_max_drawdown` is non-decreasing for every value
series; it never exceeds 1 on strictly positive series (but can exceed 1
when values are allowed to be non-positive — see the counterexample). -/
theorem mdd_monotone_and_bounded_on_positive :
    (∀ (vals : List ℚ) (rows : List DDRow), get_full_period_dd vals = some rows →
      List.Chain' (· ≤ ·) (rows.map DDRow.mdd)) ∧
    (∀ (vals : List ℚ) (rows : List DDRow), (∀ v ∈ vals, 0 < v) →
      get_full_period_dd vals = some rows → ∀ x ∈ rows.map DDRow.mdd, x ≤ 1) :=
  ⟨mdd_monotone, fun vals rows hpos h => mdd_le_one vals rows hpos h⟩

/-- Counterexample for C3 as stated: on the series `[1, -1]` (no
positivity restriction) the running max drawdown reaches 2, which
exceeds 1. -/
theorem mdd_exceeds_one_counterexample :
    (get_full_period_dd [1, -1]).map (fun rows => rows.map DDRow.mdd) = some [0, 2] ∧
    ¬ ((2 : ℚ) ≤ 1) := by
  constructor
  · norm_num [get_full_period_dd, ddLoop, expandingMean, expandingMeanAux, max_def]
  · norm_num

/-- Witness for C3 (amended): both conjuncts applied to the concrete
series `[100, 90, 95, 80, 120]`. -/
theorem mdd_monotone_and_bounded_on_positive_witness :
    (∀ rows : List DDRow, get_full_period_dd [100, 90, 95, 80, 120] = some rows →
      List.Chain' (· ≤ ·) (rows.map DDRow.mdd)) ∧
    (∀ rows : List DDRow, get_full_period_dd [100, 90, 95, 80, 120] = some rows →
      ∀ x ∈ rows.map DDRow.mdd, x ≤ 1) :=
  ⟨fun rows h => mdd_monotone_and_bounded_on_positive.1 _ rows h,
   fun rows h => mdd_monotone_and_bounded_on_positive.2 _ rows (by norm_num) h⟩

/-- C4: windowed drawdown with `window_size = len(series)` produces
exactly one summary row, equal to the final `(mdd, avdd)` pair of the
full-period drawdown of the same series. -/
theorem windowed_single_window_eq_full_final (vals : List ℚ) (hne : vals ≠ [])
    (_hpos : ∀ v ∈ vals, 0 < v) :
    calculate_draw_down_windowed vals vals.length =
      (get_full_period_dd vals).bind
        (fun rows => rows.getLast?.map (fun r => [(r.mdd, r.avdd)])) ∧
    (calculate_draw_down_windowed vals vals.length).map List.length = some 1 := by
  have hslice := get_slices_singleton vals hne
  have hw : calculate_draw_down_windowed vals vals.length = windowSummaries [vals] := by
    unfold calculate_draw_down_windowed
    rw [hslice]
    simp
  constructor
  · rw [hw, windowSummaries_singleton, windowSummary_eq_bind]
    cases get_full_period_dd vals with
    | none => rfl
    | some rows =>
      simp only [Option.some_bind]
      cases rows.getLast? <;> rfl
  · rw [hw, windowSummaries_singleton]
    obtain ⟨r, hr⟩ := windowSummary_of_nonempty vals hne
    rw [hr]
    rfl

/-- Witness for C4: the single-window identity on `[100, 90, 120]`. -/
theorem windowed_single_window_eq_full_final_witness :
    calculate_draw_down_windowed [100, 90, 120] 3 =
      (get_full_period_dd [100, 90, 120]).bind
        (fun rows => rows.getLast?.map (fun r => [(r.mdd, r.avdd)])) ∧
    (calculate_draw_down_windowed [100, 90, 120] 3).map List.length = some 1 :=
  windowed_single_window_eq_full_final [100, 90, 120] (by simp) (by norm_num)

/-- C8: in full-period drawdown, the `avdd` value at row `i` equals the
arithmetic mean of the `dd` values at all rows up to and including `i`
(exact rational equality). -/
theorem avdd_eq_prefix_mean (vals : List ℚ) (rows : List DDRow)
    (h : get_full_period_dd vals = some rows) (i : ℕ) (hi : i < rows.length) :
    (rows.get ⟨i, hi⟩).avdd = ((rows.map DDRow.dd).take (i + 1)).sum / (i + 1) := by
  cases vals with
  | nil => simp [get_full_period_dd] at h
  | cons v rest =>
    have hdm := ddmddOf_get_full v rest rows h
    rw [get_full_period_dd_eq] at h
    obtain rfl : List.zipWith (fun p a => DDRow.mk p.1 p.2 a) (ddLoop v 0 (v :: rest))
        (expandingMean ((ddLoop v 0 (v :: rest)).map Prod.fst)) = rows := Option.some.inj h
    have hmapdd : (List.zipWith (fun p a => DDRow.mk p.1 p.2 a) (ddLoop v 0 (v :: rest))
        (expandingMean ((ddLoop v 0 (v :: rest)).map Prod.fst))).map DDRow.dd =
        (ddLoop v 0 (v :: rest)).map Prod.fst := by
      rw [← ddOf, ddOf_eq, hdm]
    have hiams : i < (expandingMean ((ddLoop v 0 (v :: rest)).map Prod.fst)).length := by
      have hz : (List.zipWith (fun (p : ℚ × ℚ) (a : ℚ) => DDRow.mk p.1 p.2 a)
          (ddLoop v 0 (v :: rest))
          (expandingMean ((ddLoop v 0 (v :: rest)).map Prod.fst))).length =
          min (ddLoop v 0 (v :: rest)).length
            (expandingMean ((ddLoop v 0 (v :: rest)).map Prod.fst)).length := by
        rw [List.length_zipWith]
      omega
    have hgot := expandingMeanAux_get ((ddLoop v 0 (v :: rest)).map Prod.fst) 0 0 i hiams
    rw [hmapdd]
    simp only [List.get_eq_getElem, List.getElem_zipWith]
    simp only [expandingMean] at hgot ⊢
    simp only [List.get_eq_getElem] at hgot
    rw [hgot]
    norm_num

/-- Witness for C8: the prefix-mean identity at row 1 of the drawdown of
`[100, 90]`. -/
theorem avdd_eq_prefix_mean_witness :
    ((([⟨0, 0, 0⟩, ⟨1/10, 1/10, 1/20⟩] : List DDRow).get ⟨1, by norm_num⟩).avdd =
      ((([⟨0, 0, 0⟩, ⟨1/10, 1/10, 1/20⟩] : List DDRow).map DDRow.dd).take (1 + 1)).sum /
        (((1 : ℕ) : ℚ) + 1)) := by
  have h : get_full_period_dd [100, 90] = some [⟨0, 0, 0⟩, ⟨1/10, 1/10, 1/20⟩] := by
    norm_num [get_full_period_dd, ddLoop, expandingMean, expandingMeanAux, max_def]
  exact avdd_eq_prefix_mean [100, 90] [⟨0, 0, 0⟩, ⟨1/10, 1/10, 1/20⟩] h 1 (by norm_num)

/-- C10: drawdown applied to an empty series fails (the Python code raises
reading `df.iloc[0]`, or at `pd.concat` of zero window summaries) instead
of returning an empty result; on any non-empty series — and, in windowed
mode with a positive window size, on every chunk — the computation is
defined. -/
theorem drawdown_empty_series_fails :
    (calculate_draw_down_full ([] : List ℚ) = none) ∧
    (∀ n : ℕ, calculate_draw_down_windowed [] n = none) ∧
    (∀ vals : List ℚ, vals ≠ [] → (calculate_draw_down_full vals).isSome = true) ∧
    (∀ (vals : List ℚ) (n : ℕ), vals ≠ [] → 1 ≤ n →
      (calculate_draw_down_windowed vals n).isSome = true) := by
  refine ⟨rfl, ?_, ?_, ?_⟩
  · intro n
    simp [calculate_draw_down_windowed, get_slices, get_slicesAux]
  · intro vals hne
    cases vals with
    | nil => exact absurd rfl hne
    | cons v rest =>
      rw [calculate_draw_down_full, get_full_period_dd_eq]
      rfl
  · intro vals n hne hn
    unfold calculate_draw_down_windowed
    rw [if_neg (get_slices_ne_nil vals n hne)]
    obtain ⟨out, hout⟩ := windowSummaries_of_all_nonempty (get_slices vals n)
      (get_slicesAux_mem_ne_nil _ _ n hn)
    rw [hout]
    rfl

/-- Witness for C10: the non-emptiness precondition discharged on
`[5]` and `[5, 6]`. -/
theorem drawdown_empty_series_fails_witness :
    (calculate_draw_down_full [5] ).isSome = true ∧
    (calculate_draw_down_windowed [5, 6] 1).isSome = true :=
  ⟨drawdown_empty_series_fails.2.2.1 [5] (by simp),
   drawdown_empty_series_fails.2.2.2 [5, 6] 1 (by simp) (by norm_num)⟩

/-! ## Claim theorems: portfolio standard deviation (C5, C6) -/

/-- C5 (amended): for a single asset with full weight, the portfolio
std-dev equals `σ·sqrt(ρ)`; it equals the asset's own std-dev `σ` when the
1×1 correlation matrix carries the valid diagonal value `ρ = 1` (and
`σ ≥ 0`), but not for arbitrary `ρ` — see the counterexample. -/
theorem single_asset_std (σ : ℚ) (hσ : 0 ≤ σ) :
    calculate_portfolio_std [1] [σ] [[1]] = some ((σ : ℝ)) := by
  have hv : portfolio_variance [1] [σ] [[1]] = σ ^ 2 := by
    simp [portfolio_variance, covariance_matrix, hadamard, outer, dotV, matVec]
    ring
  unfold calculate_portfolio_std np_sqrt
  rw [hv, if_neg (not_lt.mpr (sq_nonneg σ))]
  have hc : ((σ ^ 2 : ℚ) : ℝ) = (σ : ℝ) ^ 2 := by push_cast; ring
  rw [hc, Real.sqrt_sq (by exact_mod_cast hσ)]

/-- Counterexample for C5 as stated: with weight 1, std-dev 2 and the 1×1
correlation matrix `[[0]]`, the result is 0, not the asset's std-dev 2 —
so the result is not independent of the correlation value. -/
theorem single_asset_std_counterexample :
    calculate_portfolio_std [1] [2] [[0]] = some 0 ∧ (0 : ℝ) ≠ ((2 : ℚ) : ℝ) := by
  constructor
  · have hv : portfolio_variance [1] [2] [[0]] = 0 := by
      norm_num [portfolio_variance, covariance_matrix, hadamard, outer, dotV, matVec]
    unfold calculate_portfolio_std np_sqrt
    rw [hv, if_neg (by norm_num)]
    norm_num
  · norm_num

/-- Witness for C5 (amended): the identity at `σ = 2`. -/
theorem single_asset_std_witness :
    calculate_portfolio_std [1] [2] [[1]] = some (((2 : ℚ) : ℝ)) :=
  single_asset_std 2 (by norm_num)

/-- C6 (amended): when the quadratic form `wᵀ(outer(σ,σ)⊙ρ)w` is
negative, `calculate_portfolio_std` performs no validity check and raises
nothing: it silently returns `np.sqrt` of a negative number, i.e. `NaN`
(modelled as `none`). -/
theorem negative_variance_silent_nan (w σs : List ℚ) (ρ : List (List ℚ))
    (h : portfolio_variance w σs ρ < 0) :
    calculate_portfolio_std w σs ρ = none := by
  unfold calculate_portfolio_std np_sqrt
  rw [if_pos h]

/-- Counterexample for C6 as stated: at weights `[1]`, std-devs `[1]`,
correlation `[[-1]]` the variance is negative and the function silently
returns `NaN` (`none`) — no `InvalidCorrelationMatrix` failure occurs. -/
theorem negative_variance_nan_counterexample :
    portfolio_variance [1] [1] [[-1]] < 0 ∧
    calculate_portfolio_std [1] [1] [[-1]] = none := by
  have hv : portfolio_variance [1] [1] [[-1]] = -1 := by
    norm_num [portfolio_variance, covariance_matrix, hadamard, outer, dotV, matVec]
  constructor
  · rw [hv]; norm_num
  · unfold calculate_portfolio_std np_sqrt
    rw [hv, if_pos (by norm_num)]

/-- Witness for C6 (amended): the NaN return at weights `[2]`, std-devs
`[1]`, correlation `[[-1]]`. -/
theorem negative_variance_silent_nan_witness :
    portfolio_variance [2] [1] [[-1]] < 0 ∧
    calculate_portfolio_std [2] [1] [[-1]] = none := by
  have hv : portfolio_variance [2] [1] [[-1]] = -4 := by
    norm_num [portfolio_variance, covariance_matrix, hadamard, outer, dotV, matVec]
  exact ⟨by rw [hv]; norm_num,
    negative_variance_silent_nan [2] [1] [[-1]] (by rw [hv]; norm_num)⟩

/-! ## Claim theorems: Sharpe ratio (C1, C7) -/

/-- Evaluation of the yearly Sharpe pipeline on the scenario series: one
bucket (year 2024), whose ratio follows the `annualized_daily` formula
over the returns `[10, -50/11, 100/7]`. -/
theorem c1_yearly_eval :
    get_sharpe_ratio_yearly (fun _ => 0) ⟨2024, 1⟩ ⟨2024, 6⟩ c1_series =
      [((2024 : Int), some (((100 * (prodPlus [10, -50/11, 100/7] - 1) - 0 : ℚ) : ℝ) /
        (Real.sqrt (sampleVarQ [10, -50/11, 100/7]) *
          Real.sqrt (([10, -50/11, 100/7] : List ℚ).length))))] := by
  unfold get_sharpe_ratio_yearly
  have hret : returnsSeries (sliceSeries ⟨2024, 1⟩ ⟨2024, 6⟩ c1_series) =
      [(⟨2024, 2⟩, 10), (⟨2024, 3⟩, -50/11), (⟨2024, 6⟩, 100/7)] := by
    norm_num [returnsSeries, sliceSeries, c1_series, DateLE]
  have hyears : yearsOf [(⟨2024, 2⟩, (10:ℚ)), (⟨2024, 3⟩, -50/11), (⟨2024, 6⟩, 100/7)] =
      [2024] := by
    norm_num [yearsOf, List.dedup_cons_of_mem, List.dedup_cons_of_not_mem]
  have hbucket : yearBucket [(⟨2024, 2⟩, (10:ℚ)), (⟨2024, 3⟩, -50/11), (⟨2024, 6⟩, 100/7)]
      2024 = [(⟨2024, 2⟩, 10), (⟨2024, 3⟩, -50/11), (⟨2024, 6⟩, 100/7)] := by
    norm_num [yearBucket]
  simp only [hret, hyears, List.map, hbucket]
  unfold annualized_daily
  simp only [List.getLast?_cons_cons, List.getLast?_singleton, List.map, sampleStd]
  norm_num

/-- C1 (amended): on `[1000, 1100, 1050, 1200]` with a constant 0%
risk-free rate, the single yearly bucket's Sharpe follows the yearly
formula `(100·(prod(1 + x/100) − 1) − 0) / (stdev(x)·sqrt(len(x)))` over
the returns `x = [10, -50/11, 100/7]` (first anchor dropped); the
claimed formula `mean(x)/stdev(x)·sqrt(365)` is instead the FULL_PERIOD
Sharpe of the same series. -/
theorem sharpe_scenario_amended :
    get_sharpe_ratio_yearly (fun _ => 0) ⟨2024, 1⟩ ⟨2024, 6⟩ c1_series =
      [((2024 : Int), some (((100 * (prodPlus [10, -50/11, 100/7] - 1) - 0 : ℚ) : ℝ) /
        (Real.sqrt (sampleVarQ [10, -50/11, 100/7]) *
          Real.sqrt (([10, -50/11, 100/7] : List ℚ).length))))] ∧
    get_sharpe_ratio_full (fun _ => 0) ⟨2024, 1⟩ ⟨2024, 6⟩ c1_series =
      some ((meanQ [10, -50/11, 100/7] : ℝ) /
        Real.sqrt (sampleVarQ [10, -50/11, 100/7]) * Real.sqrt 365) := by
  refine ⟨c1_yearly_eval, ?_⟩
  unfold get_sharpe_ratio_full
  have hret : returnsSeries (sliceSeries ⟨2024, 1⟩ ⟨2024, 6⟩ c1_series) =
      [(⟨2024, 2⟩, 10), (⟨2024, 3⟩, -50/11), (⟨2024, 6⟩, 100/7)] := by
    norm_num [returnsSeries, sliceSeries, c1_series, DateLE]
  simp only [hret, List.map]
  norm_num [sampleStd]

/-- Counterexample for C1 as stated: the single yearly bucket's ratio is
NOT `mean(pct_changes)/stdev(pct_changes)·sqrt(365)`. -/
theorem sharpe_yearly_scenario_counterexample :
    get_sharpe_ratio_yearly (fun _ => 0) ⟨2024, 1⟩ ⟨2024, 6⟩ c1_series ≠
      [((2024 : Int), some ((meanQ [10, -50/11, 100/7] : ℝ) /
        Real.sqrt (sampleVarQ [10, -50/11, 100/7]) * Real.sqrt 365))] := by
  rw [c1_yearly_eval]
  intro h
  simp only [List.cons.injEq, Prod.mk.injEq, Option.some.injEq, and_true, true_and,
    eq_self_iff_true] at h
  have hpp : (100 * (prodPlus [10, -50/11, 100/7] - 1) - 0 : ℚ) = 20 := by
    norm_num [prodPlus]
  have hq : sampleVarQ ([10, -50/11, 100/7] : List ℚ) = 1732900/17787 := by
    norm_num [sampleVarQ, meanQ]
  have hm : meanQ ([10, -50/11, 100/7] : List ℚ) = 1520/231 := by norm_num [meanQ]
  have hlen : ((([10, -50/11, 100/7] : List ℚ).length : ℕ) : ℝ) = 3 := by norm_num
  rw [hpp, hq, hm, hlen] at h
  push_cast at h
  have hA : 0 < Real.sqrt 17787 := Real.sqrt_pos.mpr (by norm_num)
  have hB : 0 < Real.sqrt 1732900 := Real.sqrt_pos.mpr (by norm_num)
  have ht : 0 < Real.sqrt 3 := Real.sqrt_pos.mpr (by norm_num)
  have hu : 0 < Real.sqrt 365 := Real.sqrt_pos.mpr (by norm_num)
  have ht2 : Real.sqrt 3 ^ 2 = 3 := Real.sq_sqrt (by norm_num)
  have hu2 : Real.sqrt 365 ^ 2 = 365 := Real.sq_sqrt (by norm_num)
  field_simp at h
  have h4 : (4620 - 1520 * (Real.sqrt 365 * Real.sqrt 3)) *
      (Real.sqrt 17787 * Real.sqrt 1732900) = 0 := by linear_combination h
  have h5 : (4620 : ℝ) - 1520 * (Real.sqrt 365 * Real.sqrt 3) = 0 := by
    rcases mul_eq_zero.mp h4 with h' | h'
    · exact h'
    · exact absurd h' (ne_of_gt (mul_pos hA hB))
  have hX : Real.sqrt 365 * Real.sqrt 3 = 231/76 := by linarith
  have h6 : (Real.sqrt 365 * Real.sqrt 3) ^ 2 = 1095 := by
    rw [mul_pow, ht2, hu2]; norm_num
  rw [hX] at h6
  norm_num at h6

/-- C7 (amended): a yearly Sharpe bucket with a single observation gets an
undefined (`NaN`, here `none`) ratio while the other buckets are still
computed — the per-series computation is not aborted; but a drawdown
window with a single observation does NOT get an undefined marker: its
summary is the defined numeric pair `mdd = 0, avdd = 0`. -/
theorem insufficient_data_bucket_markers :
    ((get_sharpe_ratio_yearly (fun _ => 0) ⟨2023, 1⟩ ⟨2024, 5⟩ c7_series).map
        (fun p => (p.1, p.2.isSome))) = [((2023 : Int), true), ((2024 : Int), false)] ∧
    calculate_draw_down_windowed [100, 90, 95] 2 = some [(1/10, 1/20), (0, 0)] := by
  constructor
  · unfold get_sharpe_ratio_yearly
    have hret : returnsSeries (sliceSeries ⟨2023, 1⟩ ⟨2024, 5⟩ c7_series) =
        [(⟨2023, 362⟩, 10), (⟨2023, 364⟩, -50/11), (⟨2024, 2⟩, 100/7)] := by
      norm_num [returnsSeries, sliceSeries, c7_series, DateLE]
    have hyears : yearsOf [(⟨2023, 362⟩, (10:ℚ)), (⟨2023, 364⟩, -50/11),
        (⟨2024, 2⟩, 100/7)] = [2023, 2024] := by
      norm_num [yearsOf, List.dedup_cons_of_mem, List.dedup_cons_of_not_mem]
    have hb23 : yearBucket [(⟨2023, 362⟩, (10:ℚ)), (⟨2023, 364⟩, -50/11),
        (⟨2024, 2⟩, 100/7)] 2023 = [(⟨2023, 362⟩, 10), (⟨2023, 364⟩, -50/11)] := by
      norm_num [yearBucket]
    have hb24 : yearBucket [(⟨2023, 362⟩, (10:ℚ)), (⟨2023, 364⟩, -50/11),
        (⟨2024, 2⟩, 100/7)] 2024 = [(⟨2024, 2⟩, 100/7)] := by
      norm_num [yearBucket]
    simp only [hret, hyears, List.map, hb23, hb24]
    unfold annualized_daily
    simp only [List.getLast?_cons_cons, List.getLast?_singleton, List.map, sampleStd]
    norm_num
  · have hs : get_slices [100, 90, 95] 2 = [[100, 90], [95]] := by
      norm_num [get_slices, get_slicesAux]
    unfold calculate_draw_down_windowed
    rw [hs, if_neg (by simp)]
    norm_num [windowSummaries, windowSummary, get_full_period_dd, ddLoop,
      expandingMean, expandingMeanAux, max_def, List.getLast?_cons_cons,
      List.getLast?_singleton]

/-- Counterexample for C7 as stated: the trailing length-1 drawdown window
of `[100, 90, 95]` with window size 2 yields the defined numeric summary
`(0, 0)`, not an undefined marker. -/
theorem short_window_numeric_summary :
    (calculate_draw_down_windowed [100, 90, 95] 2).bind List.getLast? =
      some ((0 : ℚ), (0 : ℚ)) := by
  have hs : get_slices [100, 90, 95] 2 = [[100, 90], [95]] := by
    norm_num [get_slices, get_slicesAux]
  unfold calculate_draw_down_windowed
  rw [hs, if_neg (by simp)]
  norm_num [windowSummaries, windowSummary, get_full_period_dd, ddLoop,
    expandingMean, expandingMeanAux, max_def, List.getLast?_cons_cons,
    List.getLast?_singleton]

/-! ## Claim theorems: performance aggregator (C9) -/

theorem DateLT.trans_le {a b c : Date} (h₁ : DateLT a b) (h₂ : DateLE b c) : DateLE a c := by
  rcases h₁ with h₁ | ⟨hy₁, ho₁⟩ <;> rcases h₂ with h₂ | ⟨hy₂, ho₂⟩
  · exact Or.inl (lt_trans h₁ h₂)
  · exact Or.inl (hy₂ ▸ h₁)
  · exact Or.inl (hy₁ ▸ h₂)
  · exact Or.inr ⟨hy₁.trans hy₂, le_of_lt (lt_of_lt_of_le ho₁ ho₂)⟩

theorem chain_lt_of_mem (a : Date × ℚ) (rest : Series)
    (h : List.Chain' (fun p q => DateLT p.1 q.1) (a :: rest)) :
    ∀ x ∈ rest, DateLT a.1 x.1 := by
  induction rest generalizing a with
  | nil => simp
  | cons b rest' ih =>
    intro x hx
    have hab : DateLT a.1 b.1 := (List.chain'_cons.mp h).1
    have hrest := (List.chain'_cons.mp h).2
    rcases List.mem_cons.mp hx with rfl | hx
    · exact hab
    · exact DateLT.trans hab (ih b hrest x hx)

theorem sorted_head_le (s : Series) (hs : SortedSeries s) (f : Date × ℚ)
    (hf : s.head? = some f) : ∀ x ∈ s, DateLE f.1 x.1 := by
  cases s with
  | nil => simp at hf
  | cons a rest =>
    obtain rfl : a = f := by simpa using hf
    intro x hx
    rcases List.mem_cons.mp hx with rfl | hx
    · exact DateLE.refl _
    · exact (chain_lt_of_mem a rest hs x hx).le

theorem sorted_le_last (s : Series) (hs : SortedSeries s) (l : Date × ℚ)
    (hl : s.getLast? = some l) : ∀ x ∈ s, DateLE x.1 l.1 := by
  induction s with
  | nil => simp at hl
  | cons a rest ih =>
    intro x hx
    cases rest with
    | nil =>
      obtain rfl : a = l := by simpa using hl
      obtain rfl : x = a := by simpa using hx
      exact DateLE.refl _
    | cons b rest' =>
      have hl' : (b :: rest').getLast? = some l := by
        simpa [List.getLast?_cons_cons] using hl
      have hchain := (List.chain'_cons.mp hs).2
      rcases List.mem_cons.mp hx with rfl | hx
      · have hab : DateLT x.1 b.1 := (List.chain'_cons.mp hs).1
        exact hab.trans_le (ih hchain hl' b (by simp))
      · exact ih hchain hl' x hx

theorem sliceSeries_full (s : Series) (hs : SortedSeries s) (f l : Date × ℚ)
    (hf : s.head? = some f) (hl : s.getLast? = some l) :
    sliceSeries f.1 l.1 s = s := by
  unfold sliceSeries
  rw [List.filter_eq_self]
  intro x hx
  rw [decide_eq_true_eq]
  exact ⟨sorted_head_le s hs f hf x hx, sorted_le_last s hs l hl x hx⟩

/-- C9: on a non-empty (sorted) series, the aggregator's record holds the
last observed value, the return `raw/base - 1`, the full-period Sharpe
over the series' full date span (the slice `df.index[0]:df.index[-1]` is
the whole series), and the final running max drawdown of the full-period
drawdown of the same series. -/
theorem perf_stats_composition (rfAt : Date → ℚ) (s : Series) (base : ℚ)
    (hs : SortedSeries s) (hne : s ≠ []) :
    calculate_model_performance_stats rfAt s base =
      s.getLast?.map (fun last =>
        { raw_value := last.2
          returns := last.2 / base - 1
          sharpe := specFullPeriodSharpe rfAt s
          mdd := (get_full_period_dd (s.map Prod.snd)).bind
            (fun rows => rows.getLast?.map DDRow.mdd) }) := by
  cases s with
  | nil => exact absurd rfl hne
  | cons a rest =>
    have hf : (a :: rest).head? = some a := rfl
    obtain ⟨last, hlast⟩ := Option.isSome_iff_exists.mp
      (List.getLast?_isSome.mpr (List.cons_ne_nil a rest))
    have hslice : sliceSeries a.1 last.1 (a :: rest) = a :: rest :=
      sliceSeries_full (a :: rest) hs a last hf hlast
    have hsharpe : get_sharpe_ratio_full rfAt a.1 last.1 (a :: rest) =
        specFullPeriodSharpe rfAt (a :: rest) := by
      unfold get_sharpe_ratio_full specFullPeriodSharpe
      rw [hslice]
    unfold calculate_model_performance_stats
    rw [hf, hlast, Option.map_some']
    show some (PerfStats.mk last.2 (last.2 / base - 1)
        (get_sharpe_ratio_full rfAt a.1 last.1 (a :: rest))
        ((get_full_period_dd ((a :: rest).map Prod.snd)).bind
          (fun rows => rows.getLast?.map DDRow.mdd))) =
      some (PerfStats.mk last.2 (last.2 / base - 1)
        (specFullPeriodSharpe rfAt (a :: rest))
        ((get_full_period_dd ((a :: rest).map Prod.snd)).bind
          (fun rows => rows.getLast?.map DDRow.mdd)))
    rw [hsharpe]

/-- Witness for C9: the aggregator record on the two-point series
`[(2024-01, 5), (2024-02, 6)]` with base 1000. -/
theorem perf_stats_composition_witness :
    calculate_model_performance_stats (fun _ => 0)
        [(⟨2024, 1⟩, 5), (⟨2024, 2⟩, 6)] 1000 =
      ([(⟨2024, 1⟩, 5), (⟨2024, 2⟩, 6)] : Series).getLast?.map (fun last =>
        { raw_value := last.2
          returns := last.2 / 1000 - 1
          sharpe := specFullPeriodSharpe (fun _ => 0) [(⟨2024, 1⟩, 5), (⟨2024, 2⟩, 6)]
          mdd := (get_full_period_dd (([(⟨2024, 1⟩, 5), (⟨2024, 2⟩, 6)] : Series).map
              Prod.snd)).bind
            (fun rows => rows.getLast?.map DDRow.mdd) }) :=
  perf_stats_composition (fun _ => 0) [(⟨2024, 1⟩, 5), (⟨2024, 2⟩, 6)] 1000
    (by constructor <;> simp [DateLT]) (by simp)

end PortfolioStats
